import Mathlib

/-!
Shallow embedding of the CH8803 collar-remote transmitter driver
(`src/ch8803.rs`) and proofs of its specified properties.

Machine integers are modelled as `Nat` with explicit `% 256` where the Rust
code wraps (`wrapping_add`, `as u8` casts); `u16` device ids and `u8`
strengths are `Nat`s constrained by hypotheses (`id < 65536`, `s < 256`).
Rust array indexing, which panics out of bounds, is modelled by `writeAt`
returning `Option`: `none` is the panic. The `From<u8> for Channel`
conversion, which panics on raw values other than 0, 1, 2, is likewise
modelled as an `Option`-valued constructor.
-/

namespace Ch8803

/-- Fixed pulse period in microseconds (`PULSE_LEN` in the source). -/
def PULSE_LEN : Nat := 1016

/-- First timing of a zero bit in microseconds (`ZERO_LEN` in the source). -/
def ZERO_LEN : Nat := 292

/-- First timing of a one bit in microseconds (`ONE_LEN` in the source). -/
def ONE_LEN : Nat := 804

/-- Channel enumeration from the source, discriminants 0, 1, 2. -/
inductive Channel where
  | Channel1
  | Channel2
  | Channel3
deriving DecidableEq

/-- Wire code of a channel (the `repr(u8)` discriminant used by `channel as u8`). -/
def Channel.code : Channel → Nat
  | .Channel1 => 0
  | .Channel2 => 1
  | .Channel3 => 2

/-- Model of `impl From<u8> for Channel`: the match arms for 0, 1, 2, and
`none` for the `panic!("Invalid channel value")` arm. -/
def Channel.fromU8 : Nat → Option Channel
  | 0 => some .Channel1
  | 1 => some .Channel2
  | 2 => some .Channel3
  | _ => none

/-- Command enumeration from the source, discriminants Shock = 1,
Vibrate = 2, Beep = 3. -/
inductive Command where
  | Shock
  | Vibrate
  | Beep
deriving DecidableEq

/-- Wire code of a command (the `repr(u8)` discriminant used by `command as u8`). -/
def Command.code : Command → Nat
  | .Shock => 1
  | .Vibrate => 2
  | .Beep => 3

/-- Checksum computed in `send_command`: the chain
`((id >> 8) as u8).wrapping_add(id as u8).wrapping_add(channel as u8)
.wrapping_add(command as u8).wrapping_add(strength)`, each cast and
`wrapping_add` taken modulo 256. -/
def checksum (id : Nat) (channel : Channel) (command : Command) (strength : Nat) : Nat :=
  (((((id >>> 8) % 256 + id % 256) % 256 + channel.code) % 256 + command.code) % 256
    + strength) % 256

/-- Model of a Rust array store `timings[i] = v`: succeeds in bounds, and
`none` models the out-of-bounds indexing panic. -/
def writeAt (l : List Nat) (i v : Nat) : Option (List Nat) :=
  if i < l.length then some (l.set i v) else none

/-- Loop body of `Transmitter::trbits`, unrolled over the remaining bit count:
for `i` from `bits - 1` down to `0`, write the pair
`(len, PULSE_LEN - len)` where `len = ONE_LEN` if bit `i` of `val` is set
and `ZERO_LEN` otherwise, advancing the index by 2 per bit. -/
def trbitsAux (val : Nat) : Nat → List Nat → Nat → Option (List Nat × Nat)
  | 0, timings, idx => some (timings, idx)
  | i + 1, timings, idx => do
    let len := if (val >>> i) &&& 1 ≠ 0 then ONE_LEN else ZERO_LEN
    let t1 ← writeAt timings idx len
    let t2 ← writeAt t1 (idx + 1) (PULSE_LEN - len)
    trbitsAux val i t2 (idx + 2)

/-- Model of `Transmitter::trbits(val, bits, timings, idx)`. -/
def trbits (val bits : Nat) (timings : List Nat) (idx : Nat) : Option (List Nat × Nat) :=
  trbitsAux val bits timings idx

/-- Frame-building part of `Transmitter::send_command`: the 128-entry
zero-initialised buffer, the three preamble writes, the six `trbits`
calls, the two trailer writes and the sentinel write, returning the final
buffer together with the final index (the transmitted slice is
`timings[..idx]`). -/
def send_command_frame (id : Nat) (channel : Channel) (command : Command) (strength : Nat) :
    Option (List Nat × Nat) := do
  let timings : List Nat := List.replicate 128 0
  let cs := checksum id channel command strength
  let t0 ← writeAt timings 0 840
  let t1 ← writeAt t0 1 1440
  let t2 ← writeAt t1 2 (PULSE_LEN - ZERO_LEN)
  let s3 ← trbits id 16 t2 3
  let s4 ← trbits channel.code 4 s3.1 s3.2
  let s5 ← trbits command.code 4 s4.1 s4.2
  let s6 ← trbits strength 8 s5.1 s5.2
  let s7 ← trbits cs 8 s6.1 s6.2
  let s8 ← trbits 0 2 s7.1 s7.2
  let t9 ← writeAt s8.1 s8.2 ZERO_LEN
  let t10 ← writeAt t9 (s8.2 + 1) 1476
  let t11 ← writeAt t10 (s8.2 + 2) 0
  some (t11, s8.2 + 2)

/-- Timing slice actually handed to `send_timing` by `send_command`:
`&timings[..idx]`. -/
def frameOf (id : Nat) (channel : Channel) (command : Command) (strength : Nat) :
    Option (List Nat) :=
  (send_command_frame id channel command strength).map (fun p => p.1.take p.2)

/-- Frame encoded by `ChannelTransmitter::beep`, which calls
`send_command(self.channel, Command::Beep, 0, duration)`: the strength
argument is hard-coded to 0 and the caller cannot supply one. -/
def beep_frame (id : Nat) (channel : Channel) : Option (List Nat) :=
  frameOf id channel Command.Beep 0

/-- Sequence of the bits of `val`, most significant of `bits` first, as the
`for i in (0..bits).rev()` loop of `trbits` visits them. -/
def bitsOf (val bits : Nat) : List Nat :=
  (List.range bits).reverse.map (fun i => (val >>> i) &&& 1)

/-- Spec-side encoding of one bit, following the claim text: the pair
(804, 212) if the bit is 1 and (292, 724) if it is 0. -/
def encodeBitSpec (b : Nat) : List Nat :=
  if b = 1 then [804, 212] else [292, 724]

/-- Spec-side bit stream of a frame, following the claim text: id (16 bits),
channel code (4 bits), command code (4 bits), strength (8 bits), checksum
(8 bits), two zero padding bits, each field most-significant-bit first. -/
def frameBitsSpec (id chCode cmdCode strength cs : Nat) : List Nat :=
  bitsOf id 16 ++ bitsOf chCode 4 ++ bitsOf cmdCode 4 ++ bitsOf strength 8 ++
    bitsOf cs 8 ++ bitsOf 0 2

/-- Spec-side frame, following the claim text: preamble 840, 1440, 724, the
42 encoded bit pairs, then trailer 292, 1476. -/
def specFrame (id chCode cmdCode strength cs : Nat) : List Nat :=
  [840, 1440, 724] ++ (frameBitsSpec id chCode cmdCode strength cs).flatMap encodeBitSpec ++
    [292, 1476]

/-- Pin-write sequence of the `send_timing` loop: one write of the current
level per timing entry, starting low, flipping each entry, stopping at the
first zero entry exactly as `take_while(|&&t| t != 0)` does. -/
def pulseWrites : List Nat → Bool → List Bool
  | [], _ => []
  | t :: rest, level => if t = 0 then [] else level :: pulseWrites rest (!level)

/-- Full pin-write sequence of `Transmitter::send_timing`: the loop writes
followed by the unconditional trailing `set_low` (false = low). -/
def send_timing_writes (timings : List Nat) : List Bool :=
  pulseWrites timings false ++ [false]

/-- Relational model of the repeat loop at the end of `send_command`:
`t i` is the instant returned by the `i`-th call of `now_fn` (call 0
computes `end = now() + duration`; calls 1, 2, ... are the guard checks of
`while now() < end`). `LoopRun t deadline i n` holds when, with the next
`now_fn` call being call `i`, the loop body (one whole-frame transmission)
runs exactly `n` more times. -/
inductive LoopRun (t : Nat → Nat) (deadline : Nat) : Nat → Nat → Prop where
  | done (i : Nat) (h : ¬ t i < deadline) : LoopRun t deadline i 0
  | step (i n : Nat) (h : t i < deadline) (rest : LoopRun t deadline (i + 1) n) :
      LoopRun t deadline i (n + 1)

theorem writeAt_at_length (l₁ : List Nat) (a : Nat) (l₂ : List Nat) (v : Nat) :
    writeAt (l₁ ++ a :: l₂) l₁.length v = some (l₁ ++ v :: l₂) := by
  have hlt : l₁.length < (l₁ ++ a :: l₂).length := by simp
  simp [writeAt, hlt, List.set_append]

theorem bitsOf_zero (val : Nat) : bitsOf val 0 = [] := rfl

theorem bitsOf_succ (val n : Nat) :
    bitsOf val (n + 1) = ((val >>> n) &&& 1) :: bitsOf val n := by
  simp [bitsOf, List.range_succ]

theorem bitsOf_length (val n : Nat) : (bitsOf val n).length = n := by
  simp [bitsOf]

theorem encodeBitSpec_length (b : Nat) : (encodeBitSpec b).length = 2 := by
  unfold encodeBitSpec
  split <;> rfl

theorem flatMap_encodeBitSpec_length (bs : List Nat) :
    (bs.flatMap encodeBitSpec).length = 2 * bs.length := by
  induction bs with
  | nil => rfl
  | cons b bs ih =>
    simp only [List.flatMap_cons, List.length_append, encodeBitSpec_length, ih,
      List.length_cons]
    omega

theorem encodeBitSpec_sum_lengths (bs : List Nat) :
    (List.map (List.length ∘ encodeBitSpec) bs).sum = 2 * bs.length := by
  induction bs with
  | nil => rfl
  | cons b bs ih =>
    simp only [List.map_cons, List.sum_cons, Function.comp_apply, encodeBitSpec_length, ih,
      List.length_cons]
    omega

theorem trbitsAux_spec (val : Nat) :
    ∀ (bits : Nat) (l₁ l₂ : List Nat), 2 * bits ≤ l₂.length →
      trbitsAux val bits (l₁ ++ l₂) l₁.length =
        some (l₁ ++ ((bitsOf val bits).flatMap encodeBitSpec ++ l₂.drop (2 * bits)),
          l₁.length + 2 * bits) := by
  intro bits
  induction bits with
  | zero =>
    intro l₁ l₂ h
    simp [trbitsAux, bitsOf_zero]
  | succ n ih =>
    intro l₁ l₂ h
    rcases l₂ with _ | ⟨a, l₂⟩
    · simp at h
    rcases l₂ with _ | ⟨b, l₂⟩
    · simp at h
      omega
    have hlen2 : 2 * n ≤ l₂.length := by
      simp only [List.length_cons] at h
      omega
    have hbit : (val >>> n) &&& 1 = (val >>> n) % 2 := Nat.and_one_is_mod _
    have hpair : ∀ len : Nat,
        len = (if (val >>> n) &&& 1 ≠ 0 then ONE_LEN else ZERO_LEN) →
        encodeBitSpec ((val >>> n) &&& 1) = [len, PULSE_LEN - len] := by
      intro len hlendef
      rcases Nat.mod_two_eq_zero_or_one (val >>> n) with hb | hb <;>
        simp [encodeBitSpec, hbit, hb, hlendef, ONE_LEN, ZERO_LEN, PULSE_LEN]
    set len := (if (val >>> n) &&& 1 ≠ 0 then ONE_LEN else ZERO_LEN) with hlendef
    have h1 : writeAt (l₁ ++ a :: b :: l₂) l₁.length len = some (l₁ ++ len :: b :: l₂) :=
      writeAt_at_length l₁ a (b :: l₂) len
    have h2 : writeAt (l₁ ++ len :: b :: l₂) (l₁.length + 1) (PULSE_LEN - len) =
        some (l₁ ++ len :: (PULSE_LEN - len) :: l₂) := by
      have h2a := writeAt_at_length (l₁ ++ [len]) b l₂ (PULSE_LEN - len)
      simpa using h2a
    have h3 : trbitsAux val n (l₁ ++ len :: (PULSE_LEN - len) :: l₂) (l₁.length + 2) =
        some ((l₁ ++ [len, PULSE_LEN - len]) ++
          ((bitsOf val n).flatMap encodeBitSpec ++ l₂.drop (2 * n)),
          (l₁.length + 2) + 2 * n) := by
      have h3a := ih (l₁ ++ [len, PULSE_LEN - len]) l₂ hlen2
      simpa using h3a
    show trbitsAux val (n + 1) (l₁ ++ a :: b :: l₂) l₁.length = _
    rw [trbitsAux]
    simp only [← hlendef, h1, Option.bind_eq_bind, Option.some_bind, h2, h3]
    rw [bitsOf_succ, List.flatMap_cons, hpair len rfl]
    have hdrop : (a :: b :: l₂).drop (2 * (n + 1)) = l₂.drop (2 * n) := by
      have : 2 * (n + 1) = 2 * n + 1 + 1 := by omega
      simp [this]
    rw [hdrop]
    have hidx : l₁.length + 2 + 2 * n = l₁.length + 2 * (n + 1) := by omega
    rw [hidx]
    simp

theorem trbits_replicate (val bits : Nat) (l₁ : List Nat) (m idx : Nat)
    (hidx : idx = l₁.length) (h : 2 * bits ≤ m) :
    trbits val bits (l₁ ++ List.replicate m 0) idx =
      some ((l₁ ++ (bitsOf val bits).flatMap encodeBitSpec) ++
        List.replicate (m - 2 * bits) 0, idx + 2 * bits) := by
  subst hidx
  have h1 := trbitsAux_spec val bits l₁ (List.replicate m 0)
    (by simpa using h)
  rw [trbits, h1, List.drop_replicate]
  simp [List.append_assoc]

theorem writeAt_at (l₁ : List Nat) (a : Nat) (l₂ : List Nat) (v idx : Nat)
    (hidx : idx = l₁.length) :
    writeAt (l₁ ++ a :: l₂) idx v = some (l₁ ++ v :: l₂) := by
  subst hidx
  exact writeAt_at_length l₁ a l₂ v

theorem specFrame_length (id c k s cs : Nat) : (specFrame id c k s cs).length = 89 := by
  simp [specFrame, frameBitsSpec, flatMap_encodeBitSpec_length, encodeBitSpec_sum_lengths, bitsOf_length]

set_option maxRecDepth 4000 in
theorem send_command_frame_eq (id : Nat) (ch : Channel) (cmd : Command) (s : Nat) :
    send_command_frame id ch cmd s =
      some (specFrame id ch.code cmd.code s (checksum id ch cmd s) ++ List.replicate 39 0,
        89) := by
  have h0 : writeAt (List.replicate 128 0) 0 840 = some (840 :: List.replicate 127 0) := by
    decide
  have h1 : writeAt (840 :: List.replicate 127 0) 1 1440 =
      some (840 :: 1440 :: List.replicate 126 0) := by decide
  have h2 : writeAt (840 :: 1440 :: List.replicate 126 0) 2 (PULSE_LEN - ZERO_LEN) =
      some (([840, 1440, 724] : List Nat) ++ List.replicate 125 0) := by decide
  have h3 : trbits id 16 (([840, 1440, 724] : List Nat) ++ List.replicate 125 0) 3 =
      some (([840, 1440, 724] ++ (bitsOf id 16).flatMap encodeBitSpec) ++
        List.replicate 93 0, 35) := by
    have h := trbits_replicate id 16 [840, 1440, 724] 125 3 (by simp) (by omega)
    simpa using h
  have h4 : trbits ch.code 4
      (([840, 1440, 724] ++ (bitsOf id 16).flatMap encodeBitSpec) ++ List.replicate 93 0) 35 =
      some ((([840, 1440, 724] ++ (bitsOf id 16).flatMap encodeBitSpec) ++
        (bitsOf ch.code 4).flatMap encodeBitSpec) ++ List.replicate 85 0, 43) := by
    have h := trbits_replicate ch.code 4
      ([840, 1440, 724] ++ (bitsOf id 16).flatMap encodeBitSpec) 93 35
      (by simp [flatMap_encodeBitSpec_length, encodeBitSpec_sum_lengths, bitsOf_length]) (by omega)
    simpa using h
  have h5 : trbits cmd.code 4
      ((([840, 1440, 724] ++ (bitsOf id 16).flatMap encodeBitSpec) ++
        (bitsOf ch.code 4).flatMap encodeBitSpec) ++ List.replicate 85 0) 43 =
      some (((([840, 1440, 724] ++ (bitsOf id 16).flatMap encodeBitSpec) ++
        (bitsOf ch.code 4).flatMap encodeBitSpec) ++
        (bitsOf cmd.code 4).flatMap encodeBitSpec) ++ List.replicate 77 0, 51) := by
    have h := trbits_replicate cmd.code 4
      (([840, 1440, 724] ++ (bitsOf id 16).flatMap encodeBitSpec) ++
        (bitsOf ch.code 4).flatMap encodeBitSpec) 85 43
      (by simp [flatMap_encodeBitSpec_length, encodeBitSpec_sum_lengths, bitsOf_length]) (by omega)
    simpa using h
  have h6 : trbits s 8
      (((([840, 1440, 724] ++ (bitsOf id 16).flatMap encodeBitSpec) ++
        (bitsOf ch.code 4).flatMap encodeBitSpec) ++
        (bitsOf cmd.code 4).flatMap encodeBitSpec) ++ List.replicate 77 0) 51 =
      some ((((([840, 1440, 724] ++ (bitsOf id 16).flatMap encodeBitSpec) ++
        (bitsOf ch.code 4).flatMap encodeBitSpec) ++
        (bitsOf cmd.code 4).flatMap encodeBitSpec) ++
        (bitsOf s 8).flatMap encodeBitSpec) ++ List.replicate 61 0, 67) := by
    have h := trbits_replicate s 8
      ((([840, 1440, 724] ++ (bitsOf id 16).flatMap encodeBitSpec) ++
        (bitsOf ch.code 4).flatMap encodeBitSpec) ++
        (bitsOf cmd.code 4).flatMap encodeBitSpec) 77 51
      (by simp [flatMap_encodeBitSpec_length, encodeBitSpec_sum_lengths, bitsOf_length]) (by omega)
    simpa using h
  have h7 : trbits (checksum id ch cmd s) 8
      ((((([840, 1440, 724] ++ (bitsOf id 16).flatMap encodeBitSpec) ++
        (bitsOf ch.code 4).flatMap encodeBitSpec) ++
        (bitsOf cmd.code 4).flatMap encodeBitSpec) ++
        (bitsOf s 8).flatMap encodeBitSpec) ++ List.replicate 61 0) 67 =
      some (((((([840, 1440, 724] ++ (bitsOf id 16).flatMap encodeBitSpec) ++
        (bitsOf ch.code 4).flatMap encodeBitSpec) ++
        (bitsOf cmd.code 4).flatMap encodeBitSpec) ++
        (bitsOf s 8).flatMap encodeBitSpec) ++
        (bitsOf (checksum id ch cmd s) 8).flatMap encodeBitSpec) ++
        List.replicate 45 0, 83) := by
    have h := trbits_replicate (checksum id ch cmd s) 8
      (((([840, 1440, 724] ++ (bitsOf id 16).flatMap encodeBitSpec) ++
        (bitsOf ch.code 4).flatMap encodeBitSpec) ++
        (bitsOf cmd.code 4).flatMap encodeBitSpec) ++
        (bitsOf s 8).flatMap encodeBitSpec) 61 67
      (by simp [flatMap_encodeBitSpec_length, encodeBitSpec_sum_lengths, bitsOf_length]) (by omega)
    simpa using h
  have h8 : trbits 0 2
      (((((([840, 1440, 724] ++ (bitsOf id 16).flatMap encodeBitSpec) ++
        (bitsOf ch.code 4).flatMap encodeBitSpec) ++
        (bitsOf cmd.code 4).flatMap encodeBitSpec) ++
        (bitsOf s 8).flatMap encodeBitSpec) ++
        (bitsOf (checksum id ch cmd s) 8).flatMap encodeBitSpec) ++
        List.replicate 45 0) 83 =
      some ((((((([840, 1440, 724] ++ (bitsOf id 16).flatMap encodeBitSpec) ++
        (bitsOf ch.code 4).flatMap encodeBitSpec) ++
        (bitsOf cmd.code 4).flatMap encodeBitSpec) ++
        (bitsOf s 8).flatMap encodeBitSpec) ++
        (bitsOf (checksum id ch cmd s) 8).flatMap encodeBitSpec) ++
        (bitsOf 0 2).flatMap encodeBitSpec) ++ List.replicate 41 0, 87) := by
    have h := trbits_replicate 0 2
      ((((([840, 1440, 724] ++ (bitsOf id 16).flatMap encodeBitSpec) ++
        (bitsOf ch.code 4).flatMap encodeBitSpec) ++
        (bitsOf cmd.code 4).flatMap encodeBitSpec) ++
        (bitsOf s 8).flatMap encodeBitSpec) ++
        (bitsOf (checksum id ch cmd s) 8).flatMap encodeBitSpec) 45 83
      (by simp [flatMap_encodeBitSpec_length, encodeBitSpec_sum_lengths, bitsOf_length]) (by omega)
    simpa using h
  set A6 : List Nat :=
    ((((([840, 1440, 724] ++ (bitsOf id 16).flatMap encodeBitSpec) ++
      (bitsOf ch.code 4).flatMap encodeBitSpec) ++
      (bitsOf cmd.code 4).flatMap encodeBitSpec) ++
      (bitsOf s 8).flatMap encodeBitSpec) ++
      (bitsOf (checksum id ch cmd s) 8).flatMap encodeBitSpec) ++
      (bitsOf 0 2).flatMap encodeBitSpec with hA6
  have hA6len : A6.length = 87 := by
    simp [hA6, flatMap_encodeBitSpec_length, encodeBitSpec_sum_lengths, bitsOf_length]
  have hrep41 : (List.replicate 41 0 : List Nat) = 0 :: List.replicate 40 0 := by
    rw [show (41 : Nat) = 40 + 1 from rfl, List.replicate_succ]
  have hrep40 : (List.replicate 40 0 : List Nat) = 0 :: List.replicate 39 0 := by
    rw [show (40 : Nat) = 39 + 1 from rfl, List.replicate_succ]
  have hrep39 : (List.replicate 39 0 : List Nat) = 0 :: List.replicate 38 0 := by
    rw [show (39 : Nat) = 38 + 1 from rfl, List.replicate_succ]
  have h9 : writeAt (A6 ++ List.replicate 41 0) 87 ZERO_LEN =
      some (A6 ++ 292 :: List.replicate 40 0) := by
    rw [hrep41]
    have h := writeAt_at A6 0 (List.replicate 40 0) ZERO_LEN 87 hA6len.symm
    simpa [ZERO_LEN] using h
  have h10 : writeAt (A6 ++ 292 :: List.replicate 40 0) 88 1476 =
      some (A6 ++ 292 :: 1476 :: List.replicate 39 0) := by
    rw [hrep40]
    have h := writeAt_at (A6 ++ [292]) 0 (List.replicate 39 0) 1476 88
      (by simp [hA6len])
    simpa using h
  have h11 : writeAt (A6 ++ 292 :: 1476 :: List.replicate 39 0) 89 0 =
      some (A6 ++ 292 :: 1476 :: 0 :: List.replicate 38 0) := by
    rw [hrep39]
    have h := writeAt_at (A6 ++ [292, 1476]) 0 (List.replicate 38 0) 0 89
      (by simp [hA6len])
    simpa using h
  simp only [send_command_frame, h0, h1, h2, Option.bind_eq_bind, Option.some_bind,
    h3, h4, h5, h6, h7, h8, ← hA6, h9, h10, h11]
  rw [specFrame, frameBitsSpec]
  simp [hA6, List.flatMap_append, List.append_assoc, hrep39]

theorem frameOf_eq (id : Nat) (ch : Channel) (cmd : Command) (s : Nat) :
    frameOf id ch cmd s =
      some (specFrame id ch.code cmd.code s (checksum id ch cmd s)) := by
  rw [frameOf, send_command_frame_eq]
  simp only [Option.map_some']
  rw [List.take_left' (specFrame_length id ch.code cmd.code s (checksum id ch cmd s))]

theorem frameBitsSpec_length (a b c d e : Nat) : (frameBitsSpec a b c d e).length = 42 := by
  simp [frameBitsSpec, bitsOf_length]

theorem specFrame_split_51 (a b c d e : Nat) :
    specFrame a b c d e =
      ([840, 1440, 724] ++ (bitsOf a 16).flatMap encodeBitSpec ++
        (bitsOf b 4).flatMap encodeBitSpec ++ (bitsOf c 4).flatMap encodeBitSpec) ++
      ((bitsOf d 8).flatMap encodeBitSpec ++
        ((bitsOf e 8).flatMap encodeBitSpec ++
          ((bitsOf 0 2).flatMap encodeBitSpec ++ [292, 1476]))) := by
  simp [specFrame, frameBitsSpec, List.flatMap_append, List.append_assoc]

theorem specFrame_strength_slice (a b c d e : Nat) :
    ((specFrame a b c d e).drop 51).take 16 = (bitsOf d 8).flatMap encodeBitSpec := by
  rw [specFrame_split_51, List.drop_left'
    (by simp [flatMap_encodeBitSpec_length, encodeBitSpec_sum_lengths, bitsOf_length]),
    List.take_left' (by simp [flatMap_encodeBitSpec_length, encodeBitSpec_sum_lengths,
      bitsOf_length])]

theorem specFrame_split_67 (a b c d e : Nat) :
    specFrame a b c d e =
      ([840, 1440, 724] ++ (bitsOf a 16).flatMap encodeBitSpec ++
        (bitsOf b 4).flatMap encodeBitSpec ++ (bitsOf c 4).flatMap encodeBitSpec ++
        (bitsOf d 8).flatMap encodeBitSpec) ++
      ((bitsOf e 8).flatMap encodeBitSpec ++
        ((bitsOf 0 2).flatMap encodeBitSpec ++ [292, 1476])) := by
  simp [specFrame, frameBitsSpec, List.flatMap_append, List.append_assoc]

theorem specFrame_checksum_slice (a b c d e : Nat) :
    ((specFrame a b c d e).drop 67).take 16 = (bitsOf e 8).flatMap encodeBitSpec := by
  rw [specFrame_split_67, List.drop_left'
    (by simp [flatMap_encodeBitSpec_length, encodeBitSpec_sum_lengths, bitsOf_length]),
    List.take_left' (by simp [flatMap_encodeBitSpec_length, encodeBitSpec_sum_lengths,
      bitsOf_length])]

theorem specFrame_take_51 (a b c d e : Nat) :
    (specFrame a b c d e).take 51 =
      [840, 1440, 724] ++ (bitsOf a 16).flatMap encodeBitSpec ++
        (bitsOf b 4).flatMap encodeBitSpec ++ (bitsOf c 4).flatMap encodeBitSpec := by
  rw [specFrame_split_51, List.take_left'
    (by simp [flatMap_encodeBitSpec_length, encodeBitSpec_sum_lengths, bitsOf_length])]

theorem specFrame_split_83 (a b c d e : Nat) :
    specFrame a b c d e =
      ([840, 1440, 724] ++ (bitsOf a 16).flatMap encodeBitSpec ++
        (bitsOf b 4).flatMap encodeBitSpec ++ (bitsOf c 4).flatMap encodeBitSpec ++
        (bitsOf d 8).flatMap encodeBitSpec ++ (bitsOf e 8).flatMap encodeBitSpec) ++
      ((bitsOf 0 2).flatMap encodeBitSpec ++ [292, 1476]) := by
  simp [specFrame, frameBitsSpec, List.flatMap_append, List.append_assoc]

theorem specFrame_drop_83 (a b c d e : Nat) :
    (specFrame a b c d e).drop 83 = [292, 724, 292, 724, 292, 1476] := by
  rw [specFrame_split_83, List.drop_left'
    (by simp [flatMap_encodeBitSpec_length, encodeBitSpec_sum_lengths, bitsOf_length])]
  decide

theorem encodeBitSpec_mem_ge (b x : Nat) (hx : x ∈ encodeBitSpec b) : 212 ≤ x := by
  unfold encodeBitSpec at hx
  split at hx
  · simp only [List.mem_cons, List.not_mem_nil, or_false] at hx
    rcases hx with rfl | rfl <;> omega
  · simp only [List.mem_cons, List.not_mem_nil, or_false] at hx
    rcases hx with rfl | rfl <;> omega

theorem specFrame_all_ge (a b c d e : Nat) : ∀ x ∈ specFrame a b c d e, 212 ≤ x := by
  intro x hx
  simp only [specFrame, List.mem_append, List.mem_flatMap, List.mem_cons,
    List.not_mem_nil, or_false] at hx
  rcases hx with (hx | ⟨bit, _, hbit⟩) | hx
  · rcases hx with rfl | rfl | rfl <;> omega
  · exact encodeBitSpec_mem_ge bit x hbit
  · rcases hx with rfl | rfl <;> omega

theorem pulseWrites_length_of_no_zero :
    ∀ (l : List Nat) (lev : Bool), (∀ x ∈ l, x ≠ 0) → (pulseWrites l lev).length = l.length := by
  intro l
  induction l with
  | nil => intro lev _; rfl
  | cons t rest ih =>
    intro lev h
    have ht : t ≠ 0 := h t (List.mem_cons_self t rest)
    simp only [pulseWrites, if_neg ht, List.length_cons]
    rw [ih (!lev) (fun x hx => h x (List.mem_cons_of_mem t hx))]

theorem flatMap_encodeBitSpec_drop :
    ∀ (bs : List Nat) (k : Nat) (tail : List Nat), k < bs.length →
      ∃ b rest, (bs.flatMap encodeBitSpec ++ tail).drop (2 * k) = encodeBitSpec b ++ rest := by
  intro bs
  induction bs with
  | nil =>
    intro k tail h
    simp at h
  | cons b bs ih =>
    intro k tail h
    match k with
    | 0 =>
      exact ⟨b, bs.flatMap encodeBitSpec ++ tail, by
        simp [List.flatMap_cons, List.append_assoc]⟩
    | k + 1 =>
      have hk : k < bs.length := by
        simp only [List.length_cons] at h
        omega
      obtain ⟨b0, rest, hr⟩ := ih k tail hk
      refine ⟨b0, rest, ?_⟩
      have h2 : 2 * (k + 1) = 2 * k + 1 + 1 := by omega
      by_cases hb : b = 1 <;>
        simp [List.flatMap_cons, encodeBitSpec, hb, h2, List.append_assoc,
          List.drop_succ_cons, hr]

/-- Claim C1: for every id in [0,65535], channel, command and strength in
[0,255], the frame built by `send_command` is exactly the 89-entry sequence
of the claim text (preamble 840, 1440, 724; the 42 bits of id, channel
code, command code, strength, checksum and two zero padding bits,
most-significant-bit first, each bit contributing (804, 212) if 1 and
(292, 724) if 0; trailer 292, 1476), and its length 89 is within the
128-entry capacity. `specFrame` is the claim-side description; `frameOf`
is the slice the code transmits. -/
theorem C1_frame_layout (id s : Nat) (ch : Channel) (cmd : Command)
    (hid : id < 65536) (hs : s < 256) :
    frameOf id ch cmd s =
      some (specFrame id ch.code cmd.code s (checksum id ch cmd s)) ∧
    (specFrame id ch.code cmd.code s (checksum id ch cmd s)).length = 89 ∧
    (specFrame id ch.code cmd.code s (checksum id ch cmd s)).length ≤ 128 := by
  refine ⟨frameOf_eq id ch cmd s, specFrame_length .., ?_⟩
  rw [specFrame_length]
  omega

/-- Witness for C1 at id 0x1234, Channel2, Shock, strength 200. -/
theorem C1_frame_layout_witness :
    frameOf 0x1234 Channel.Channel2 Command.Shock 200 =
      some (specFrame 0x1234 Channel.Channel2.code Command.Shock.code 200
        (checksum 0x1234 Channel.Channel2 Command.Shock 200)) ∧
    (specFrame 0x1234 Channel.Channel2.code Command.Shock.code 200
      (checksum 0x1234 Channel.Channel2 Command.Shock 200)).length = 89 ∧
    (specFrame 0x1234 Channel.Channel2.code Command.Shock.code 200
      (checksum 0x1234 Channel.Channel2 Command.Shock 200)).length ≤ 128 :=
  C1_frame_layout 0x1234 200 Channel.Channel2 Command.Shock (by decide) (by decide)

/-- Claim C2: the checksum encoded into the frame equals the wrapping
modulo-256 byte sum of (id >> 8, id and 0xFF, channel code, command code,
strength); it is a pure function of those inputs, recomputed per call and
never caller-supplied (the embedding `checksum` takes only those inputs).
Concretely, for id 0x0D25, Channel1 (code 0), Beep (code 3), strength 0,
the checksum is 0x35 and the checksum bit-field of the frame (entries
67 to 82) encodes the bits 00110101. -/
theorem C2_checksum (id s : Nat) (ch : Channel) (cmd : Command)
    (hid : id < 65536) (hs : s < 256) :
    checksum id ch cmd s = ((id >>> 8) + id % 256 + ch.code + cmd.code + s) % 256 ∧
    checksum 0x0D25 Channel.Channel1 Command.Beep 0 = 0x35 ∧
    (frameOf 0x0D25 Channel.Channel1 Command.Beep 0).map (fun l => (l.drop 67).take 16) =
      some (([0, 0, 1, 1, 0, 1, 0, 1] : List Nat).flatMap encodeBitSpec) := by
  refine ⟨?_, by decide, ?_⟩
  · rw [checksum]
    omega
  · rw [frameOf_eq]
    simp only [Option.map_some']
    rw [specFrame_checksum_slice]
    decide

/-- Witness for C2 at id 7, Channel3, Vibrate, strength 9. -/
theorem C2_checksum_witness :
    checksum 7 Channel.Channel3 Command.Vibrate 9 =
      ((7 >>> 8) + 7 % 256 + Channel.Channel3.code + Command.Vibrate.code + 9) % 256 ∧
    checksum 0x0D25 Channel.Channel1 Command.Beep 0 = 0x35 ∧
    (frameOf 0x0D25 Channel.Channel1 Command.Beep 0).map (fun l => (l.drop 67).take 16) =
      some (([0, 0, 1, 1, 0, 1, 0, 1] : List Nat).flatMap encodeBitSpec) :=
  C2_checksum 7 9 Channel.Channel3 Command.Vibrate (by decide) (by decide)

/-- Claim C3: in every frame produced by the encoder, each of the 42
bit-encoding pairs of consecutive entries (entries 3 + 2k and 4 + 2k for
k < 42) sums to 1016 (PULSE_LEN), being either (804, 212) or (292, 724). -/
theorem C3_isochronous (id s : Nat) (ch : Channel) (cmd : Command)
    (hid : id < 65536) (hs : s < 256) (l : List Nat)
    (hl : frameOf id ch cmd s = some l) (k : Nat) (hk : k < 42) :
    ∃ a b, (l.drop (3 + 2 * k)).take 2 = [a, b] ∧ a + b = 1016 ∧
      ((a = 804 ∧ b = 212) ∨ (a = 292 ∧ b = 724)) := by
  rw [frameOf_eq] at hl
  obtain rfl := Option.some.inj hl
  have hd : (specFrame id ch.code cmd.code s (checksum id ch cmd s)).drop (3 + 2 * k) =
      ((frameBitsSpec id ch.code cmd.code s (checksum id ch cmd s)).flatMap encodeBitSpec ++
        [292, 1476]).drop (2 * k) := by
    rw [specFrame]
    have h3 : 3 + 2 * k = 2 * k + 1 + 1 + 1 := by omega
    simp [h3, List.drop_succ_cons]
  obtain ⟨bit, rest, hr⟩ := flatMap_encodeBitSpec_drop
    (frameBitsSpec id ch.code cmd.code s (checksum id ch cmd s)) k [292, 1476]
    (by rw [frameBitsSpec_length]; exact hk)
  rw [hd, hr]
  by_cases hb : bit = 1
  · exact ⟨804, 212, by simp [encodeBitSpec, hb], by omega, Or.inl ⟨rfl, rfl⟩⟩
  · exact ⟨292, 724, by simp [encodeBitSpec, hb], by omega, Or.inr ⟨rfl, rfl⟩⟩

/-- Witness for C3 at id 0, Channel1, Shock, strength 0, pair k = 0. -/
theorem C3_isochronous_witness :
    ∃ a b, ((specFrame 0 Channel.Channel1.code Command.Shock.code 0
        (checksum 0 Channel.Channel1 Command.Shock 0)).drop (3 + 2 * 0)).take 2 = [a, b] ∧
      a + b = 1016 ∧ ((a = 804 ∧ b = 212) ∨ (a = 292 ∧ b = 724)) :=
  C3_isochronous 0 0 Channel.Channel1 Command.Shock (by decide) (by decide) _
    (frameOf_eq 0 Channel.Channel1 Command.Shock 0) 0 (by decide)

/-- Claim C4: under the deadline-check ordering of the repeat loop
(deadline computed from `now()` call 0 as `t 0 + d`, the guard checked
strictly before each whole-frame transmission, with a monotonic clock),
duration 0 transmits zero frames, and a positive duration — with the clock
not having advanced between the deadline computation and the first check,
as nothing happens between them — transmits at least one frame. -/
theorem C4_duration_boundaries (t : Nat → Nat) (d : Nat)
    (hmono : ∀ i j, i ≤ j → t i ≤ t j) :
    (d = 0 → LoopRun t (t 0 + d) 1 0 ∧ ∀ n, LoopRun t (t 0 + d) 1 n → n = 0) ∧
    (0 < d → t 1 = t 0 → ∀ n, LoopRun t (t 0 + d) 1 n → 1 ≤ n) := by
  constructor
  · intro hd
    subst hd
    have h01 : t 0 ≤ t 1 := hmono 0 1 (by omega)
    constructor
    · exact LoopRun.done 1 (by omega)
    · intro n hn
      cases hn with
      | done _ _ => rfl
      | step _ _ h _ => omega
  · intro hd ht n hn
    cases hn with
    | done _ h => omega
    | step _ _ _ _ => omega

/-- Witness for C4 with the constant clock at 0: duration 0 gives zero
frames, duration 1 gives at least one frame. -/
theorem C4_duration_boundaries_witness :
    (LoopRun (fun _ => 0) 0 1 0 ∧ ∀ n, LoopRun (fun _ => 0) 0 1 n → n = 0) ∧
    (∀ n, LoopRun (fun _ => 0) 1 1 n → 1 ≤ n) := by
  constructor
  · exact (C4_duration_boundaries (fun _ => 0) 0 (fun i j h => Nat.le_refl 0)).1 rfl
  · exact (C4_duration_boundaries (fun _ => 0) 1 (fun i j h => Nat.le_refl 0)).2
      (by omega) rfl

/-- Claim C5: `beep(duration)` encodes the strength field of the produced
frame as 0: the beep frame is the frame for command Beep with strength 0
(`beep_frame` takes no strength argument, mirroring the API), and its
strength bit-field (entries 51 to 66) is eight zero-bit pairs. -/
theorem C5_beep_strength_zero (id : Nat) (ch : Channel) (hid : id < 65536) :
    beep_frame id ch = frameOf id ch Command.Beep 0 ∧
    ∀ l, beep_frame id ch = some l →
      (l.drop 51).take 16 =
        [292, 724, 292, 724, 292, 724, 292, 724, 292, 724, 292, 724, 292, 724, 292, 724] := by
  refine ⟨rfl, ?_⟩
  intro l hl
  rw [beep_frame, frameOf_eq] at hl
  obtain rfl := Option.some.inj hl
  rw [specFrame_strength_slice]
  decide

/-- Witness for C5 at id 1, Channel1. -/
theorem C5_beep_strength_zero_witness :
    beep_frame 1 Channel.Channel1 = frameOf 1 Channel.Channel1 Command.Beep 0 ∧
    ((specFrame 1 Channel.Channel1.code Command.Beep.code 0
      (checksum 1 Channel.Channel1 Command.Beep 0)).drop 51).take 16 =
      [292, 724, 292, 724, 292, 724, 292, 724, 292, 724, 292, 724, 292, 724, 292, 724] :=
  ⟨(C5_beep_strength_zero 1 Channel.Channel1 (by decide)).1,
   (C5_beep_strength_zero 1 Channel.Channel1 (by decide)).2 _
     (frameOf_eq 1 Channel.Channel1 Command.Beep 0)⟩

/-- Claim C6: for every timing sequence, of any length and parity
(including the empty one), `send_timing` finishes with the pin low: the
last pin write of its write sequence is the low level. -/
theorem C6_pin_ends_low (timings : List Nat) :
    (send_timing_writes timings).getLast? = some false := by
  rw [send_timing_writes]
  exact List.getLast?_concat _

/-- Claim C7: constructing a `Channel` from a raw integer succeeds exactly
for 0, 1 and 2, yielding Channel1, Channel2 and Channel3 with wire codes
0, 1 and 2; every other raw value is the unrecoverable `panic!` arm,
modelled as `none`, with no value returned. -/
theorem C7_channel_construction :
    Channel.fromU8 0 = some Channel.Channel1 ∧ Channel.Channel1.code = 0 ∧
    Channel.fromU8 1 = some Channel.Channel2 ∧ Channel.Channel2.code = 1 ∧
    Channel.fromU8 2 = some Channel.Channel3 ∧ Channel.Channel3.code = 2 ∧
    ∀ n : Nat, 3 ≤ n → Channel.fromU8 n = none := by
  refine ⟨rfl, rfl, rfl, rfl, rfl, rfl, ?_⟩
  intro n hn
  match n, hn with
  | n + 3, _ => rfl

/-- Witness for C7 at the out-of-range raw value 5. -/
theorem C7_channel_construction_witness : Channel.fromU8 5 = none :=
  C7_channel_construction.2.2.2.2.2.2 5 (by omega)

/-- Claim C8: for a fixed device id and channel, the frames for
`vibrate_ms(1, 2000)` and `vibrate_ms(99, 2000)` (both encode command
Vibrate; the duration does not enter the frame) agree on every entry
before the strength bit-field (entries 0 to 50) and after the checksum
bit-field (entries 83 to 88): only entries 51 to 82 may differ. -/
theorem C8_strength_isolation (id : Nat) (ch : Channel) (hid : id < 65536) :
    ∃ l₁ l₂, frameOf id ch Command.Vibrate 1 = some l₁ ∧
      frameOf id ch Command.Vibrate 99 = some l₂ ∧
      l₁.length = 89 ∧ l₂.length = 89 ∧
      l₁.take 51 = l₂.take 51 ∧ l₁.drop 83 = l₂.drop 83 := by
  refine ⟨_, _, frameOf_eq id ch Command.Vibrate 1, frameOf_eq id ch Command.Vibrate 99,
    specFrame_length .., specFrame_length .., ?_, ?_⟩
  · rw [specFrame_take_51, specFrame_take_51]
  · rw [specFrame_drop_83, specFrame_drop_83]

/-- Witness for C8 at id 0x0D25, Channel1. -/
theorem C8_strength_isolation_witness :
    ∃ l₁ l₂, frameOf 0x0D25 Channel.Channel1 Command.Vibrate 1 = some l₁ ∧
      frameOf 0x0D25 Channel.Channel1 Command.Vibrate 99 = some l₂ ∧
      l₁.length = 89 ∧ l₂.length = 89 ∧
      l₁.take 51 = l₂.take 51 ∧ l₁.drop 83 = l₂.drop 83 :=
  C8_strength_isolation 0x0D25 Channel.Channel1 (by decide)

/-- Claim C9: every entry of the transmitted 89-entry frame is at least 212
(hence nonzero), so the zero-sentinel `take_while` in `send_timing` never
stops early — the pin-write sequence of the loop covers all 89 entries —
and the sentinel 0 sits at buffer index 89, outside the transmitted slice
`timings[..89]`. -/
theorem C9_no_early_sentinel (id s : Nat) (ch : Channel) (cmd : Command)
    (hid : id < 65536) (hs : s < 256) :
    ∃ buf, send_command_frame id ch cmd s = some (buf, 89) ∧
      buf.length = 128 ∧
      (∀ x ∈ buf.take 89, 212 ≤ x) ∧
      buf[89]? = some 0 ∧
      (pulseWrites (buf.take 89) false).length = 89 := by
  have htake : (specFrame id ch.code cmd.code s (checksum id ch cmd s) ++
      List.replicate 39 0).take 89 =
      specFrame id ch.code cmd.code s (checksum id ch cmd s) :=
    List.take_left' (specFrame_length ..)
  refine ⟨specFrame id ch.code cmd.code s (checksum id ch cmd s) ++ List.replicate 39 0,
    send_command_frame_eq id ch cmd s, by simp [specFrame_length], ?_, ?_, ?_⟩
  · rw [htake]
    exact specFrame_all_ge id ch.code cmd.code s (checksum id ch cmd s)
  · rw [List.getElem?_append_right (by rw [specFrame_length])]
    simp [specFrame_length]
  · rw [htake, pulseWrites_length_of_no_zero _ false ?_, specFrame_length]
    intro x hx
    have h := specFrame_all_ge id ch.code cmd.code s (checksum id ch cmd s) x hx
    omega

/-- Witness for C9 at id 2, Channel1, Beep, strength 0. -/
theorem C9_no_early_sentinel_witness :
    ∃ buf, send_command_frame 2 Channel.Channel1 Command.Beep 0 = some (buf, 89) ∧
      buf.length = 128 ∧
      (∀ x ∈ buf.take 89, 212 ≤ x) ∧
      buf[89]? = some 0 ∧
      (pulseWrites (buf.take 89) false).length = 89 :=
  C9_no_early_sentinel 2 0 Channel.Channel1 Command.Beep (by decide) (by decide)

/-- Claim C10: for every valid input, all buffer writes performed by
`send_command` and `trbits` are in bounds — the embedding returns `some`
rather than the `none` that models an indexing panic — and the index
finishes at exactly 89, with the sentinel write at index 89 < 128. -/
theorem C10_writes_in_bounds (id s : Nat) (ch : Channel) (cmd : Command)
    (hid : id < 65536) (hs : s < 256) :
    ∃ buf, send_command_frame id ch cmd s = some (buf, 89) ∧
      buf.length = 128 ∧ 89 < 128 :=
  ⟨_, send_command_frame_eq id ch cmd s, by simp [specFrame_length], by omega⟩

/-- Witness for C10 at id 65535, Channel3, Shock, strength 255. -/
theorem C10_writes_in_bounds_witness :
    ∃ buf, send_command_frame 65535 Channel.Channel3 Command.Shock 255 = some (buf, 89) ∧
      buf.length = 128 ∧ 89 < 128 :=
  C10_writes_in_bounds 65535 255 Channel.Channel3 Command.Shock (by decide) (by decide)

end Ch8803
